import Mathlib

/-!
Verification of `dowhy/gcm/distribution_change.py` against its specification.

The Python module is shallowly embedded: numeric values (Python/NumPy floats) are
modelled as rationals, data frames and 2-D arrays as lists of rows, and functions
supplied by external collaborators (the independence test, the difference
estimation function, the Shapley estimator, mechanism fitting) as explicit
function parameters.  Randomness (NumPy subsampling) is modelled by passing the
drawn index lists explicitly, with their defining properties as hypotheses.
-/

namespace DistributionChange

/-- One observation row of a data table or a 2-D sample array. -/
abbrev Row := List ℚ

/-! ### The Monte-Carlo accumulation loop of `_estimate_distribution_change_score`

Source (lines 373-388):

```
result = 0
run = 0
for joint_parent_sample in joint_parent_samples:
    old_result = result
    samples = repmat(joint_parent_sample, num_joint_samples, 1)
    result += difference_estimation_func(...)
    run += 1
    if old_result != 0 and (1 - result / old_result) <= early_stopping_percentage:
        break
return result / run
```

The per-row value `difference_estimation_func(causal_model_original.draw_samples(samples),
causal_model_anomaly.draw_samples(samples))` is an external, possibly random
quantity; the loop is embedded over the list of these per-row contributions. -/

/-- The accumulation loop: carries the running total `result` and the number of
processed rows `run`; breaks when the previous total is nonzero and the relative
change `1 - result / old_result` is at most the threshold. -/
def scoreLoop (early_stopping_percentage : ℚ) : List ℚ → ℚ → ℕ → ℚ × ℕ
  | [], result, run => (result, run)
  | c :: rest, result, run =>
    let newResult := result + c
    if result ≠ 0 ∧ 1 - newResult / result ≤ early_stopping_percentage then
      (newResult, run + 1)
    else
      scoreLoop early_stopping_percentage rest newResult (run + 1)

/-- Number of rows actually processed by the loop. -/
def loopRun (early_stopping_percentage : ℚ) (contributions : List ℚ) : ℕ :=
  (scoreLoop early_stopping_percentage contributions 0 0).2

/-- The final statement `return result / run` of `_estimate_distribution_change_score`.
The division is unguarded in the source; `run = 0` raises a `ZeroDivisionError`
in Python, modelled here as `none`. -/
def estimate_distribution_change_score (early_stopping_percentage : ℚ)
    (contributions : List ℚ) : Option ℚ :=
  let res := scoreLoop early_stopping_percentage contributions 0 0
  if res.2 = 0 then none else some (res.1 / (res.2 : ℚ))

/-- The early-stopping condition expressed over partial sums of the contribution
list: after processing row `i` (0-based), the previous running total is the sum
of the first `i` contributions and the new one the sum of the first `i + 1`. -/
def stopCond (early_stopping_percentage : ℚ) (cs : List ℚ) (i : ℕ) : Prop :=
  (cs.take i).sum ≠ 0 ∧
    1 - (cs.take (i + 1)).sum / (cs.take i).sum ≤ early_stopping_percentage

/-- Early-stopping condition relative to an already accumulated total `acc`. -/
def stopCondFrom (t acc : ℚ) (cs : List ℚ) (i : ℕ) : Prop :=
  acc + (cs.take i).sum ≠ 0 ∧
    1 - (acc + (cs.take (i + 1)).sum) / (acc + (cs.take i).sum) ≤ t

lemma stopCondFrom_cons (t acc c : ℚ) (rest : List ℚ) (j : ℕ) :
    stopCondFrom t acc (c :: rest) (j + 1) ↔ stopCondFrom t (acc + c) rest j := by
  simp [stopCondFrom, List.take_succ_cons, add_assoc]

lemma stopCondFrom_zero (t acc c : ℚ) (rest : List ℚ) :
    stopCondFrom t acc (c :: rest) 0 ↔ (acc ≠ 0 ∧ 1 - (acc + c) / acc ≤ t) := by
  simp [stopCondFrom, List.take_succ_cons]

/-- Full characterization of the accumulation loop: it processes a nonempty
prefix of the contributions (all of them unless the break fires), the running
total is the sum of that prefix, the break fires exactly when the early-stopping
condition holds, and never at an earlier row. -/
lemma scoreLoop_char (t : ℚ) :
    ∀ (cs : List ℚ) (acc : ℚ) (n0 : ℕ),
      ∃ n, scoreLoop t cs acc n0 = (acc + (cs.take n).sum, n0 + n) ∧
        n ≤ cs.length ∧ (cs ≠ [] → 1 ≤ n) ∧
        (n < cs.length → stopCondFrom t acc cs (n - 1)) ∧
        (∀ i, i + 1 < n → ¬ stopCondFrom t acc cs i) := by
  intro cs
  induction cs with
  | nil =>
    intro acc n0
    refine ⟨0, by simp [scoreLoop], by simp, by simp, by simp, ?_⟩
    intro i hi
    omega
  | cons c rest ih =>
    intro acc n0
    by_cases hc : acc ≠ 0 ∧ 1 - (acc + c) / acc ≤ t
    · refine ⟨1, ?_, by simp, fun _ => le_refl 1, ?_, ?_⟩
      · simp [scoreLoop, hc, List.take_succ_cons]
      · intro _
        exact (stopCondFrom_zero t acc c rest).mpr hc
      · intro i hi
        omega
    · obtain ⟨n, hrec, hlen, hpos, hstop, hmin⟩ := ih (acc + c) (n0 + 1)
      refine ⟨n + 1, ?_, by simp; omega, fun _ => by omega, ?_, ?_⟩
      · have hunfold : scoreLoop t (c :: rest) acc n0 = scoreLoop t rest (acc + c) (n0 + 1) := by
          simp only [scoreLoop]
          rw [if_neg hc]
        rw [hunfold, hrec, Prod.mk.injEq]
        refine ⟨?_, by omega⟩
        simp [List.take_succ_cons]
        ring
      · intro hlt
        have hrestne : rest ≠ [] := by
          intro he
          subst he
          simp only [List.length_cons, List.length_nil] at hlt
          omega
        have hn1 : 1 ≤ n := hpos hrestne
        have hnlt : n < rest.length := by
          simp at hlt
          omega
        obtain ⟨m, rfl⟩ : ∃ m, n = m + 1 := ⟨n - 1, by omega⟩
        have := hstop hnlt
        simp only [Nat.add_sub_cancel] at this ⊢
        exact (stopCondFrom_cons t acc c rest m).mpr this
      · intro i hi
        match i with
        | 0 =>
          rw [stopCondFrom_zero]
          exact hc
        | j + 1 =>
          rw [stopCondFrom_cons]
          exact hmin j (by omega)

lemma stopCondFrom_zero_acc (t : ℚ) (cs : List ℚ) (i : ℕ) :
    stopCondFrom t 0 cs i ↔ stopCond t cs i := by
  simp [stopCondFrom, stopCond]

/-- Specialization of the loop characterization at the initial state. -/
lemma scoreLoop_main (t : ℚ) (cs : List ℚ) :
    scoreLoop t cs 0 0 = ((cs.take (loopRun t cs)).sum, loopRun t cs) ∧
      loopRun t cs ≤ cs.length ∧ (cs ≠ [] → 1 ≤ loopRun t cs) ∧
      (loopRun t cs < cs.length → stopCond t cs (loopRun t cs - 1)) ∧
      (∀ i, i + 1 < loopRun t cs → ¬ stopCond t cs i) := by
  obtain ⟨n, hrec, hlen, hpos, hstop, hmin⟩ := scoreLoop_char t cs 0 0
  have hn : loopRun t cs = n := by
    simp [loopRun, hrec]
  rw [hn]
  refine ⟨by rw [hrec]; simp, hlen, hpos, ?_, ?_⟩
  · intro h
    exact (stopCondFrom_zero_acc t cs _).mp (hstop h)
  · intro i hi
    rw [← stopCondFrom_zero_acc t cs i]
    exact hmin i hi

/-- C2: in the anomaly-score Monte-Carlo loop, the loop stops early exactly when
the previous running total is nonzero and the relative change
`1 - new_total / old_total` is at most the early-stopping threshold (and never
before the first row where that condition holds), and the returned score is the
accumulated sum divided by the number of rows actually processed. -/
theorem loop_early_stopping_and_mean (t : ℚ) (cs : List ℚ) (h : cs ≠ []) :
    1 ≤ loopRun t cs ∧ loopRun t cs ≤ cs.length ∧
      estimate_distribution_change_score t cs
        = some ((cs.take (loopRun t cs)).sum / (loopRun t cs : ℚ)) ∧
      (loopRun t cs < cs.length → stopCond t cs (loopRun t cs - 1)) ∧
      (∀ i, i + 1 < loopRun t cs → ¬ stopCond t cs i) := by
  obtain ⟨hrec, hlen, hpos, hstop, hmin⟩ := scoreLoop_main t cs
  have h1 : 1 ≤ loopRun t cs := hpos h
  refine ⟨h1, hlen, ?_, hstop, hmin⟩
  rw [estimate_distribution_change_score, hrec]
  simp
  omega

/-- Witness for C2 at a concrete input. -/
theorem loop_early_stopping_and_mean_witness :
    ([(4 : ℚ), 1, 9] ≠ []) ∧
      estimate_distribution_change_score 0 [(4 : ℚ), 1, 9]
        = some (([(4 : ℚ), 1, 9].take (loopRun 0 [(4 : ℚ), 1, 9])).sum
            / (loopRun 0 [(4 : ℚ), 1, 9] : ℚ)) := by
  refine ⟨by simp, ?_⟩
  exact (loop_early_stopping_and_mean 0 [(4 : ℚ), 1, 9] (by simp)).2.2.1

/-- C3: with a nonnegative threshold, a strictly positive first contribution and
a nonnegative second contribution, the loop stops after exactly two rows no
matter how many further rows are available, and the score is the mean of the
first two contributions. -/
theorem loop_stops_after_two_rows (t c1 c2 : ℚ) (rest : List ℚ)
    (ht : 0 ≤ t) (h1 : 0 < c1) (h2 : 0 ≤ c2) :
    loopRun t (c1 :: c2 :: rest) = 2 ∧
      estimate_distribution_change_score t (c1 :: c2 :: rest) = some ((c1 + c2) / 2) := by
  have hc1 : ¬((0 : ℚ) ≠ 0 ∧ 1 - (0 + c1) / 0 ≤ t) := by simp
  have hcond : (0 : ℚ) + c1 ≠ 0 ∧ 1 - ((0 + c1) + c2) / (0 + c1) ≤ t := by
    rw [zero_add]
    refine ⟨ne_of_gt h1, ?_⟩
    have hge : (1 : ℚ) ≤ (c1 + c2) / c1 := by
      rw [le_div_iff₀ h1]
      linarith
    linarith
  have hloop : scoreLoop t (c1 :: c2 :: rest) 0 0 = ((0 + c1) + c2, 2) := by
    rw [scoreLoop]
    simp only [if_neg hc1]
    rw [scoreLoop]
    simp only [if_pos hcond]
  constructor
  · simp [loopRun, hloop]
  · rw [estimate_distribution_change_score, hloop]
    norm_num

/-- Witness for C3 at a concrete input. -/
theorem loop_stops_after_two_rows_witness :
    (0 : ℚ) ≤ 1 ∧ (0 : ℚ) < 3 ∧ (0 : ℚ) ≤ 5 ∧
      loopRun 1 [(3 : ℚ), 5, 100, 200] = 2 ∧
      estimate_distribution_change_score 1 [(3 : ℚ), 5, 100, 200] = some 4 := by
  have h := loop_stops_after_two_rows 1 3 5 [100, 200]
    (by norm_num) (by norm_num) (by norm_num)
  refine ⟨by norm_num, by norm_num, by norm_num, h.1, ?_⟩
  rw [h.2]
  norm_num

/-! ### Row building of `_estimate_distribution_change_score` (lines 366-371)

`joint_parent_samples = np.vstack([parent_original_data, parent_anomaly_data])`
followed by `np.random.choice` of `min(rows, max_num_evaluation_samples)` row
indices without replacement and fancy indexing.  The drawn index list is passed
explicitly; NumPy fancy indexing with in-range indices is `npChoiceRows`. -/

/-- NumPy fancy row indexing `a[idx]`: the rows of `a` at the positions in
`idx` (all indices drawn by `np.random.choice(a.shape[0], ...)` are in range,
so the default row of `getD` is never used under that hypothesis). -/
def npChoiceRows (a : List Row) (idx : List ℕ) : List Row :=
  idx.map fun i => a.getD i []

/-- Embedding of `_estimate_distribution_change_score` from rows: stack the
original and anomaly parent rows, subsample (via the externally drawn `idx`),
apply the per-row contribution (the difference of the two mechanisms' samples
conditioned on the replicated row, an external quantity), run the accumulation
loop and divide by the number of processed rows. -/
def estimate_distribution_change_score_mc (early_stopping_percentage : ℚ)
    (parent_original_data parent_anomaly_data : List Row)
    (max_num_evaluation_samples : ℕ) (idx : List ℕ)
    (contribution : Row → ℚ) : Option ℚ :=
  let joint_parent_samples := parent_original_data ++ parent_anomaly_data
  estimate_distribution_change_score early_stopping_percentage
    ((npChoiceRows joint_parent_samples idx).map contribution)

/-- C10: the final division of the Monte-Carlo score is unguarded, so the
computation yields a value only when the pooled parent array is nonempty and
`max_num_evaluation_samples` is at least 1; on an empty pooled parent array the
loop body never executes and the division is by zero (modelled as `none`). -/
theorem score_division_by_zero_on_empty_pool (t : ℚ)
    (parent_original_data parent_anomaly_data : List Row)
    (max_num_evaluation_samples : ℕ) (idx : List ℕ) (contribution : Row → ℚ)
    (hlen : idx.length
      = min (parent_original_data ++ parent_anomaly_data).length max_num_evaluation_samples) :
    (parent_original_data ++ parent_anomaly_data = [] →
      loopRun t ((npChoiceRows (parent_original_data ++ parent_anomaly_data) idx).map contribution) = 0 ∧
      estimate_distribution_change_score_mc t parent_original_data parent_anomaly_data
        max_num_evaluation_samples idx contribution = none) ∧
    (parent_original_data ++ parent_anomaly_data ≠ [] → 1 ≤ max_num_evaluation_samples →
      (estimate_distribution_change_score_mc t parent_original_data parent_anomaly_data
        max_num_evaluation_samples idx contribution).isSome = true) := by
  constructor
  · intro hempty
    have hidx : idx = [] := by
      rw [hempty] at hlen
      simp at hlen
      exact hlen
    subst hidx
    constructor
    · simp [npChoiceRows, loopRun, scoreLoop]
    · simp [estimate_distribution_change_score_mc, estimate_distribution_change_score,
        npChoiceRows, scoreLoop]
  · intro hne hmax
    have hlenpos : 1 ≤ idx.length := by
      rw [hlen]
      have : 1 ≤ (parent_original_data ++ parent_anomaly_data).length :=
        List.length_pos.mpr hne
      omega
    have hcne : (npChoiceRows (parent_original_data ++ parent_anomaly_data) idx).map contribution ≠ [] := by
      simp [npChoiceRows]
      intro h
      rw [h] at hlenpos
      simp at hlenpos
    obtain ⟨hrec, _, hpos, _, _⟩ :=
      scoreLoop_main t ((npChoiceRows (parent_original_data ++ parent_anomaly_data) idx).map contribution)
    have h1 := hpos hcne
    rw [estimate_distribution_change_score_mc, estimate_distribution_change_score, hrec]
    simp only []
    rw [if_neg (by omega)]
    rfl

/-- Witness for C10 at concrete inputs: an empty pooled parent array makes the
division-by-zero case fire, and a nonempty pool with budget 1 yields a value. -/
theorem score_division_by_zero_on_empty_pool_witness :
    (([] : List Row) ++ [] = [] ∧
      estimate_distribution_change_score_mc 0 ([] : List Row) [] 0 [] (fun r => r.sum + 1)
        = none) ∧
    (([[(5 : ℚ)]] : List Row) ++ [] ≠ [] ∧
      (estimate_distribution_change_score_mc 0 [[(5 : ℚ)]] [] 1 [0]
        (fun r => r.sum + 1)).isSome = true) := by
  constructor
  · refine ⟨rfl, ?_⟩
    exact ((score_division_by_zero_on_empty_pool 0 ([] : List Row) [] 0 []
      (fun r => r.sum + 1) (by simp)).1 rfl).2
  · refine ⟨by simp, ?_⟩
    exact (score_division_by_zero_on_empty_pool 0 [[(5 : ℚ)]] [] 1 [0]
      (fun r => r.sum + 1) (by simp)).2 (by simp) (by omega)

/-! ### `_check_significant_mechanism_change` (lines 319-348)

The per-node p-values are produced by the external `mechanism_change_func` on
the node's data; they are modelled by a function from nodes to rationals.  The
decision step is embedded exactly: with no FDR control method the i-th decision
is `p_i <= significance_level`, otherwise the external `multipletests`
procedure (statsmodels) decides; the result pairs the graph's nodes with the
decisions in iteration order (`dict(zip(graph.nodes, successes))`). -/

/-- Decision step of `_check_significant_mechanism_change` (lines 343-346). -/
def significanceDecisions (fdr_control_method : Option String)
    (multipletestsDecisions : List ℚ → ℚ → List Bool)
    (all_p_values : List ℚ) (significance_level : ℚ) : List Bool :=
  match fdr_control_method with
  | none => all_p_values.map fun p => decide (p ≤ significance_level)
  | some _ => multipletestsDecisions all_p_values significance_level

/-- Embedding of `_check_significant_mechanism_change`: p-values in node order,
decisions zipped back onto the nodes. -/
def check_significant_mechanism_change (fdr_control_method : Option String)
    (multipletestsDecisions : List ℚ → ℚ → List Bool)
    (nodes : List ℕ) (pvalue : ℕ → ℚ) (significance_level : ℚ) : List (ℕ × Bool) :=
  nodes.zip (significanceDecisions fdr_control_method multipletestsDecisions
    (nodes.map pvalue) significance_level)

lemma zip_self_map {α β : Type} (l : List α) (f : α → β) :
    l.zip (l.map f) = l.map fun a => (a, f a) := by
  induction l with
  | nil => rfl
  | cons a l ih => simp [ih]

/-- C7: with no FDR control method, the i-th decision is exactly
`p_i <= significance_level`, computed per node and paired with the i-th node in
iteration order; an empty node list yields an empty result. -/
theorem corrector_threshold_decisions (multipletestsDecisions : List ℚ → ℚ → List Bool)
    (nodes : List ℕ) (pvalue : ℕ → ℚ) (significance_level : ℚ) (i : ℕ) :
    (check_significant_mechanism_change none multipletestsDecisions nodes pvalue
        significance_level).get? i
      = (nodes.get? i).map (fun n => (n, decide (pvalue n ≤ significance_level))) ∧
    ((check_significant_mechanism_change none multipletestsDecisions nodes pvalue
        significance_level).get? i).map (fun p => p.2)
      = ((nodes.map pvalue).get? i).map (fun p => decide (p ≤ significance_level)) ∧
    check_significant_mechanism_change none multipletestsDecisions [] pvalue
        significance_level = [] ∧
    significanceDecisions none multipletestsDecisions [] significance_level = [] := by
  have hz : check_significant_mechanism_change none multipletestsDecisions nodes pvalue
      significance_level
      = nodes.map fun n => (n, decide (pvalue n ≤ significance_level)) := by
    rw [check_significant_mechanism_change, significanceDecisions, List.map_map]
    exact zip_self_map nodes _
  refine ⟨?_, ?_, rfl, rfl⟩
  · rw [hz, List.get?_map]
  · rw [hz, List.get?_map, List.get?_map]
    cases nodes.get? i <;> simp

/-! ### `_fit_accounting_for_mechanism_change` (lines 199-227), fit phase

`joint_data = old_data.append(new_data, ignore_index=True, sort=True)` builds a
fresh pooled frame (pandas `append` does not mutate its receiver; `sort=True`
only orders the columns and leaves the rows, hence the row count, unchanged),
modelled as list concatenation.  Each `fit_causal_model_of_target` call is
recorded as a `FitRecord` naming the node, the model it was issued on
(`onNewModel = false` for `causal_model_old`, `true` for `causal_model_new`)
and the data table it received.  The change flags come from
`_check_significant_mechanism_change`, abstracted as a boolean function.  The
returned pair carries the fit calls in issue order together with the final
values of the two input tables, which the source never reassigns or mutates. -/

structure FitRecord where
  node : ℕ
  onNewModel : Bool
  data : List Row
  deriving DecidableEq

/-- Embedding of the fit loop of `_fit_accounting_for_mechanism_change`. -/
def fit_accounting_for_mechanism_change (nodes : List ℕ)
    (mechanism_changed_for_node : ℕ → Bool)
    (old_data new_data : List Row) : List FitRecord × (List Row × List Row) :=
  let joint_data := old_data ++ new_data
  (nodes.bind fun node =>
    if mechanism_changed_for_node node then
      [⟨node, false, old_data⟩, ⟨node, true, new_data⟩]
    else
      [⟨node, false, joint_data⟩, ⟨node, true, joint_data⟩],
   (old_data, new_data))

/-- C5: a node flagged as changed has its old-model mechanism fit on exactly the
old table and its new-model mechanism on exactly the new table; an unchanged
node has both mechanisms fit on the pooled table of `|old| + |new|` rows; and
the input tables come out of the call unchanged. -/
theorem refitter_data_per_flag (nodes : List ℕ) (mechanism_changed_for_node : ℕ → Bool)
    (old_data new_data : List Row) (node : ℕ) (hmem : node ∈ nodes) :
    (mechanism_changed_for_node node = true →
      (⟨node, false, old_data⟩ : FitRecord)
          ∈ (fit_accounting_for_mechanism_change nodes mechanism_changed_for_node
              old_data new_data).1 ∧
      (⟨node, true, new_data⟩ : FitRecord)
          ∈ (fit_accounting_for_mechanism_change nodes mechanism_changed_for_node
              old_data new_data).1 ∧
      (∀ r ∈ (fit_accounting_for_mechanism_change nodes mechanism_changed_for_node
              old_data new_data).1, r.node = node →
        (r.onNewModel = false → r.data = old_data) ∧
        (r.onNewModel = true → r.data = new_data))) ∧
    (mechanism_changed_for_node node = false →
      (⟨node, false, old_data ++ new_data⟩ : FitRecord)
          ∈ (fit_accounting_for_mechanism_change nodes mechanism_changed_for_node
              old_data new_data).1 ∧
      (⟨node, true, old_data ++ new_data⟩ : FitRecord)
          ∈ (fit_accounting_for_mechanism_change nodes mechanism_changed_for_node
              old_data new_data).1 ∧
      (∀ r ∈ (fit_accounting_for_mechanism_change nodes mechanism_changed_for_node
              old_data new_data).1, r.node = node →
        r.data = old_data ++ new_data ∧
        r.data.length = old_data.length + new_data.length)) ∧
    (fit_accounting_for_mechanism_change nodes mechanism_changed_for_node
        old_data new_data).2 = (old_data, new_data) := by
  refine ⟨?_, ?_, rfl⟩
  · intro hch
    refine ⟨?_, ?_, ?_⟩
    · simp [fit_accounting_for_mechanism_change, List.mem_bind]
      exact ⟨node, hmem, by simp [hch]⟩
    · simp [fit_accounting_for_mechanism_change, List.mem_bind]
      exact ⟨node, hmem, by simp [hch]⟩
    · intro r hr hrnode
      simp [fit_accounting_for_mechanism_change, List.mem_bind] at hr
      obtain ⟨a, _, hra⟩ := hr
      by_cases hca : mechanism_changed_for_node a = true
      · rw [if_pos hca] at hra
        simp at hra
        rcases hra with h | h <;> subst h <;> simp
      · rw [if_neg hca] at hra
        simp at hra
        have hanode : a = node := by
          rcases hra with h | h <;> subst h <;> simpa using hrnode
        rw [hanode] at hca
        simp [hch] at hca
  · intro hch
    refine ⟨?_, ?_, ?_⟩
    · simp [fit_accounting_for_mechanism_change, List.mem_bind]
      exact ⟨node, hmem, by simp [hch]⟩
    · simp [fit_accounting_for_mechanism_change, List.mem_bind]
      exact ⟨node, hmem, by simp [hch]⟩
    · intro r hr hrnode
      simp [fit_accounting_for_mechanism_change, List.mem_bind] at hr
      obtain ⟨a, _, hra⟩ := hr
      by_cases hca : mechanism_changed_for_node a = true
      · have hanode : a = node := by
          rw [if_pos hca] at hra
          simp at hra
          rcases hra with h | h <;> subst h <;> simpa using hrnode
        rw [hanode] at hca
        rw [hch] at hca
        simp at hca
      · rw [if_neg hca] at hra
        simp at hra
        rcases hra with h | h <;> subst h <;> simp

/-- Witness for C5 at a concrete input. -/
theorem refitter_data_per_flag_witness :
    (1 : ℕ) ∈ [0, 1] ∧
      ((fun n => decide (n = 1)) 1 = true →
        (⟨1, false, [[(7 : ℚ)]]⟩ : FitRecord)
          ∈ (fit_accounting_for_mechanism_change [0, 1] (fun n => decide (n = 1))
              [[(7 : ℚ)]] [[(8 : ℚ)], [(9 : ℚ)]]).1) := by
  refine ⟨by simp, fun h => ?_⟩
  exact (((refitter_data_per_flag [0, 1] (fun n => decide (n = 1))
    [[(7 : ℚ)]] [[(8 : ℚ)], [(9 : ℚ)]] 1 (by simp)).1) h).1

/-! ### `estimate_distribution_change_scores` (lines 268-316), per-node dispatch

After `_check_significant_mechanism_change` (flags abstracted as a boolean
function), each node is scored: 0 when unchanged; the raw difference
`difference_estimation_func(original_data[node], anomaly_data[node])`
(abstracted as `rawDiff`) when changed and a root; the Monte-Carlo score of
`_estimate_distribution_change_score` (abstracted as `mcScore`; embedded in
detail above) when changed with parents.  The side effects of each branch are
recorded: the Monte-Carlo helper clones the node's mechanism and refits the
clone (source lines 363-364) before its sampling loop, the root branch only
evaluates the difference function on the raw node columns. -/

inductive ScoreEv where
  | cloneMechanism (node : ℕ)
  | refitMechanism (node : ℕ)
  | evalDifferenceRaw (node : ℕ)
  | monteCarlo (node : ℕ)
  deriving DecidableEq

/-- Score and recorded effects for a single node of the dispatch loop. -/
def scoreEntry (parents : ℕ → List ℕ) (mechanism_changed_for_node : ℕ → Bool)
    (rawDiff mcScore : ℕ → ℚ) (node : ℕ) : ℚ × List ScoreEv :=
  if mechanism_changed_for_node node then
    if (parents node).isEmpty then
      (rawDiff node, [ScoreEv.evalDifferenceRaw node])
    else
      (mcScore node,
       [ScoreEv.cloneMechanism node, ScoreEv.refitMechanism node, ScoreEv.monteCarlo node])
  else (0, [])

/-- Embedding of `estimate_distribution_change_scores`: the per-node results in
graph iteration order. -/
def estimate_distribution_change_scores (nodes : List ℕ) (parents : ℕ → List ℕ)
    (mechanism_changed_for_node : ℕ → Bool) (rawDiff mcScore : ℕ → ℚ) : List (ℕ × ℚ) :=
  nodes.map fun node =>
    (node, (scoreEntry parents mechanism_changed_for_node rawDiff mcScore node).1)

/-- The effects issued while computing `estimate_distribution_change_scores`. -/
def estimate_distribution_change_scores_events (nodes : List ℕ) (parents : ℕ → List ℕ)
    (mechanism_changed_for_node : ℕ → Bool) (rawDiff mcScore : ℕ → ℚ) : List ScoreEv :=
  nodes.bind fun node =>
    (scoreEntry parents mechanism_changed_for_node rawDiff mcScore node).2

/-- C9: unchanged nodes score 0; changed root nodes score the raw difference on
that node's original and anomaly columns with no mechanism cloning or
refitting; and the Monte-Carlo evaluation is entered exactly for the changed
non-root nodes. -/
theorem scores_dispatch_per_node (nodes : List ℕ) (parents : ℕ → List ℕ)
    (changed : ℕ → Bool) (rawDiff mcScore : ℕ → ℚ) (n : ℕ) (hn : n ∈ nodes) :
    ((n, (scoreEntry parents changed rawDiff mcScore n).1)
        ∈ estimate_distribution_change_scores nodes parents changed rawDiff mcScore) ∧
    (changed n = false →
      ∀ p ∈ estimate_distribution_change_scores nodes parents changed rawDiff mcScore,
        p.1 = n → p.2 = 0) ∧
    (changed n = true → parents n = [] →
      (∀ p ∈ estimate_distribution_change_scores nodes parents changed rawDiff mcScore,
        p.1 = n → p.2 = rawDiff n) ∧
      ScoreEv.cloneMechanism n
          ∉ estimate_distribution_change_scores_events nodes parents changed rawDiff mcScore ∧
      ScoreEv.refitMechanism n
          ∉ estimate_distribution_change_scores_events nodes parents changed rawDiff mcScore ∧
      ScoreEv.evalDifferenceRaw n
          ∈ estimate_distribution_change_scores_events nodes parents changed rawDiff mcScore) ∧
    (ScoreEv.monteCarlo n
        ∈ estimate_distribution_change_scores_events nodes parents changed rawDiff mcScore
      ↔ changed n = true ∧ parents n ≠ []) := by
  refine ⟨?_, ?_, ?_, ?_⟩
  · exact List.mem_map.mpr ⟨n, hn, rfl⟩
  · intro hch p hp hpn
    obtain ⟨a, _, rfl⟩ := List.mem_map.mp hp
    simp only at hpn
    subst hpn
    simp [scoreEntry, hch]
  · intro hch hroot
    refine ⟨?_, ?_, ?_, ?_⟩
    · intro p hp hpn
      obtain ⟨a, _, rfl⟩ := List.mem_map.mp hp
      simp only at hpn
      subst hpn
      simp [scoreEntry, hch, hroot]
    · intro habs
      simp [estimate_distribution_change_scores_events, List.mem_bind] at habs
      obtain ⟨a, _, ha⟩ := habs
      by_cases hca : changed a = true
      · by_cases hra : (parents a).isEmpty
        · simp [scoreEntry, hca, hra] at ha
        · simp [scoreEntry, hca, hra] at ha
          subst ha
          simp [hroot] at hra
      · simp [scoreEntry, hca] at ha
    · intro habs
      simp [estimate_distribution_change_scores_events, List.mem_bind] at habs
      obtain ⟨a, _, ha⟩ := habs
      by_cases hca : changed a = true
      · by_cases hra : (parents a).isEmpty
        · simp [scoreEntry, hca, hra] at ha
        · simp [scoreEntry, hca, hra] at ha
          subst ha
          simp [hroot] at hra
      · simp [scoreEntry, hca] at ha
    · simp [estimate_distribution_change_scores_events, List.mem_bind]
      exact ⟨n, hn, by simp [scoreEntry, hch, hroot]⟩
  · constructor
    · intro habs
      simp [estimate_distribution_change_scores_events, List.mem_bind] at habs
      obtain ⟨a, _, ha⟩ := habs
      by_cases hca : changed a = true
      · by_cases hra : (parents a).isEmpty
        · simp [scoreEntry, hca, hra] at ha
        · simp [scoreEntry, hca, hra] at ha
          subst ha
          exact ⟨hca, by simpa [List.isEmpty_iff] using hra⟩
      · simp [scoreEntry, hca] at ha
    · rintro ⟨hch, hroot⟩
      simp [estimate_distribution_change_scores_events, List.mem_bind]
      refine ⟨n, hn, ?_⟩
      simp [scoreEntry, hch, List.isEmpty_iff, hroot]

/-- Witness for C9 at a concrete input: node 2 is a changed root, node 1 is
changed with a parent, node 0 is unchanged. -/
theorem scores_dispatch_per_node_witness :
    (2 : ℕ) ∈ [0, 1, 2] ∧
      (ScoreEv.monteCarlo 2
          ∈ estimate_distribution_change_scores_events [0, 1, 2]
              (fun n => if n = 1 then [2] else []) (fun n => decide (1 ≤ n))
              (fun _ => 3) (fun _ => 4)
        ↔ decide (1 ≤ (2 : ℕ)) = true ∧ (if (2 : ℕ) = 1 then [(2 : ℕ)] else []) ≠ []) := by
  refine ⟨by simp, ?_⟩
  exact (scores_dispatch_per_node [0, 1, 2] (fun n => if n = 1 then [2] else [])
    (fun n => decide (1 ≤ n)) (fun _ => 3) (fun _ => 4) 2 (by simp)).2.2.2

/-! ### `mechanism_change_test` input construction (lines 38-47)

```
num_samples_for_testing = min(target_original_data.shape[0], target_new_data.shape[0])
data_set_indices = np.ones(num_samples_for_testing * 2)
data_set_indices[num_samples_for_testing:] = -1
data_set_indices = data_set_indices.astype(str)
original_indices = np.random.choice(..., num_samples_for_testing, replace=False)
new_indices = np.random.choice(..., num_samples_for_testing, replace=False)
joint_target_samples = np.vstack([shape_into_2d(target_original_data[original_indices]),
                                  shape_into_2d(target_new_data[new_indices])])
```

`np.ones` produces float64 values, so `astype(str)` renders each label via the
float's string form: `str(1.0) = "1.0"` and `str(-1.0) = "-1.0"`.  The drawn
index lists are passed explicitly; `shape_into_2d` is the identity on the row
representation used here. -/

/-- Model of NumPy elementwise float64-to-string conversion (`astype(str)`)
restricted to integer-valued floats, the only values occurring in the label
array: the integer part followed by a trailing ".0". -/
def numpyFloatToString (q : ℚ) : String := toString q.num ++ ".0"

/-- Embedding of the label vector construction (lines 39-41). -/
def data_set_indices (num_samples_for_testing : ℕ) : List String :=
  (List.replicate num_samples_for_testing (1 : ℚ)
    ++ List.replicate num_samples_for_testing (-1 : ℚ)).map numpyFloatToString

/-- Embedding of the two arrays handed to the independence test: the stacked
joint target samples and the label vector. -/
def mechanism_change_test_inputs (target_original_data target_new_data : List Row)
    (original_indices new_indices : List ℕ) : List Row × List String :=
  let num_samples_for_testing :=
    min target_original_data.length target_new_data.length
  (npChoiceRows target_original_data original_indices
     ++ npChoiceRows target_new_data new_indices,
   data_set_indices num_samples_for_testing)

lemma data_set_indices_eq (m : ℕ) :
    data_set_indices m = List.replicate m ("1.0") ++ List.replicate m ("-1.0") := by
  have h1 : numpyFloatToString 1 = "1.0" := by decide
  have h2 : numpyFloatToString (-1) = "-1.0" := by decide
  rw [data_set_indices, List.map_append, List.map_replicate, List.map_replicate, h1, h2]

/-- C8 counterexample: the labels carried by the independence-test input are
the strings "1.0" and "-1.0" (NumPy renders the float64 values of `np.ones`
with a trailing ".0" under `astype(str)`), not "1" and "-1" as the claim
states: at a concrete input the first (old-derived) label differs from "1". -/
theorem mechanism_change_labels_counterexample :
    (mechanism_change_test_inputs [[(1 : ℚ)]] [[(2 : ℚ)]] [0] [0]).2
        = [("1.0"), ("-1.0")] ∧
      (mechanism_change_test_inputs [[(1 : ℚ)]] [[(2 : ℚ)]] [0] [0]).2.get? 0
        ≠ some ("1") ∧
      (mechanism_change_test_inputs [[(1 : ℚ)]] [[(2 : ℚ)]] [0] [0]).2.get? 1
        ≠ some ("-1") := by
  decide

/-- C8 amended: the independence test receives a joint target array stacked
from a subsample of size `m = min(|old|, |new|)` of each side, drawn without
replacement (old-derived rows first), together with a label vector of length
`2 * m` whose first `m` entries are the string "1.0" and whose remaining `m`
entries are the string "-1.0". -/
theorem mechanism_change_test_inputs_spec
    (target_original_data target_new_data : List Row)
    (original_indices new_indices : List ℕ)
    (hoi : original_indices.length
      = min target_original_data.length target_new_data.length)
    (hni : new_indices.length
      = min target_original_data.length target_new_data.length)
    (hoinodup : original_indices.Nodup) (hninodup : new_indices.Nodup) :
    (mechanism_change_test_inputs target_original_data target_new_data
        original_indices new_indices).1.length
      = 2 * min target_original_data.length target_new_data.length ∧
    (mechanism_change_test_inputs target_original_data target_new_data
        original_indices new_indices).2.length
      = 2 * min target_original_data.length target_new_data.length ∧
    (∀ i, i < min target_original_data.length target_new_data.length →
      (mechanism_change_test_inputs target_original_data target_new_data
          original_indices new_indices).2.get? i = some ("1.0")) ∧
    (∀ i, i < min target_original_data.length target_new_data.length →
      (mechanism_change_test_inputs target_original_data target_new_data
          original_indices new_indices).2.get?
          (min target_original_data.length target_new_data.length + i)
        = some ("-1.0")) ∧
    (∀ i, i < min target_original_data.length target_new_data.length →
      (mechanism_change_test_inputs target_original_data target_new_data
          original_indices new_indices).1.get? i
        = (original_indices.get? i).map fun j => target_original_data.getD j []) ∧
    (∀ i, i < min target_original_data.length target_new_data.length →
      (mechanism_change_test_inputs target_original_data target_new_data
          original_indices new_indices).1.get?
          (min target_original_data.length target_new_data.length + i)
        = (new_indices.get? i).map fun j => target_new_data.getD j []) := by
  refine ⟨?_, ?_, ?_, ?_, ?_, ?_⟩
  · simp [mechanism_change_test_inputs, npChoiceRows, hoi, hni]
    ring
  · simp [mechanism_change_test_inputs, data_set_indices]
    ring
  · intro i hi
    simp only [mechanism_change_test_inputs]
    rw [data_set_indices_eq, List.get?_append (by simpa using hi)]
    simp [List.get?_eq_getElem?, List.getElem?_replicate, hi]
  · intro i hi
    simp only [mechanism_change_test_inputs]
    rw [data_set_indices_eq, List.get?_append_right (by simp)]
    simp [List.get?_eq_getElem?, List.getElem?_replicate, hi]
  · intro i hi
    simp only [mechanism_change_test_inputs]
    rw [List.get?_append (by simpa [npChoiceRows, hoi] using hi)]
    simp [npChoiceRows, List.get?_map]
  · intro i hi
    simp only [mechanism_change_test_inputs]
    rw [List.get?_append_right (by simp [npChoiceRows, hoi])]
    simp only [npChoiceRows, List.length_map, hoi]
    rw [Nat.add_sub_cancel_left]
    simp [List.get?_map]

/-- Witness for C8 (amended) at a concrete input. -/
theorem mechanism_change_test_inputs_spec_witness :
    ([(1 : ℕ)].length = min ([[(1 : ℚ)], [(2 : ℚ)]] : List Row).length
        ([[(3 : ℚ)]] : List Row).length) ∧
      (mechanism_change_test_inputs [[(1 : ℚ)], [(2 : ℚ)]] [[(3 : ℚ)]] [1] [0]).2.get? 0
        = some ("1.0") := by
  refine ⟨by simp, ?_⟩
  exact (mechanism_change_test_inputs_spec [[(1 : ℚ)], [(2 : ℚ)]] [[(3 : ℚ)]] [1] [0]
    (by simp) (by simp) (by simp) (by simp)).2.2.1 0 (by simp)

/-! ### `__estimate_marginal_distribution_change` (lines 230-265)

Node identifiers are modelled as naturals (opaque, totally ordered, as Python
`sorted` requires).  Causal mechanisms are an arbitrary inhabited type `M`; the
old and new models' mechanism lookup (`causal_mechanism`) are functions
`ℕ → M`.  Python `sorted` on the graph's node iteration order is modelled by
insertion sort under `≤`.  Sampling the hybrid model and applying
`difference_estimation_func` against the baseline samples is the external
quantity `valueOfHybrid`; the external Shapley estimator is the parameter
`shapley`.  The set function records its side effects (hybrid-model
construction, sampling, difference evaluation) so the short circuit of the
empty subset is observable. -/

/-- Python `sorted(graph.nodes)`. -/
def sortedNodes (nodes : List ℕ) : List ℕ := nodes.insertionSort (· ≤ ·)

/-- Effects of one evaluation of the Shapley set function. -/
inductive DriverCall (M : Type) where
  | constructHybrid (assignment : List (ℕ × M))
  | drawSamplesFromHybrid
  | evalDifferenceFunc
  deriving DecidableEq

/-- The hybrid mechanism assignment built by the loop at lines 250-254: the
i-th player (i-th node in sorted order) receives the new-fitted mechanism when
the subset vector holds 1 at position i, the old-fitted one otherwise. -/
def hybridAssignment {M : Type} [Inhabited M]
    (old_causal_models new_causal_models : List M)
    (nodes subset : List ℕ) : List (ℕ × M) :=
  (List.range old_causal_models.length).map fun i =>
    (nodes.getD i 0,
     if subset.getD i 0 = 1 then new_causal_models.getD i default
     else old_causal_models.getD i default)

/-- Embedding of `attribution_set_function` (lines 243-261): value returned to
the Shapley estimator together with the recorded effects. -/
def attribution_set_function {M : Type} [Inhabited M] (oldMech newMech : ℕ → M)
    (g : List ℕ) (valueOfHybrid : List (ℕ × M) → ℚ)
    (subset : List ℕ) : ℚ × List (DriverCall M) :=
  if subset.all (fun s => s = 0) then (0, [])
  else
    let a := hybridAssignment ((sortedNodes g).map oldMech)
      ((sortedNodes g).map newMech) (sortedNodes g) subset
    (valueOfHybrid a,
     [DriverCall.constructHybrid a, DriverCall.drawSamplesFromHybrid,
      DriverCall.evalDifferenceFunc])

/-- Embedding of `__estimate_marginal_distribution_change`: the Shapley
estimator is called on the set function with one player per node, and the
output dictionary keys the i-th estimated value by the i-th sorted node
(line 265). -/
def estimate_marginal_distribution_change {M : Type} [Inhabited M]
    (oldMech newMech : ℕ → M) (g : List ℕ)
    (shapley : (List ℕ → ℚ) → ℕ → List ℚ)
    (valueOfHybrid : List (ℕ × M) → ℚ) : List (ℕ × ℚ) :=
  let old_causal_models := (sortedNodes g).map oldMech
  let attributions := shapley
    (fun subset => (attribution_set_function oldMech newMech g valueOfHybrid subset).1)
    old_causal_models.length
  (List.range (sortedNodes g).length).map fun i =>
    ((sortedNodes g).getD i 0, attributions.getD i 0)

lemma sortedNodes_perm_eq {g g' : List ℕ} (h : g.Perm g') :
    sortedNodes g = sortedNodes g' := by
  refine List.eq_of_perm_of_sorted ?_ (List.sorted_insertionSort _ g)
    (List.sorted_insertionSort _ g')
  exact (List.perm_insertionSort _ g).trans (h.trans (List.perm_insertionSort _ g').symm)

lemma getD_map_of_lt {α β : Type} (l : List α) (f : α → β) (i : ℕ)
    (hi : i < l.length) (d : β) (d' : α) :
    (l.map f).getD i d = f (l.getD i d') := by
  rw [List.getD_eq_getElem _ _ (by simpa using hi), List.getD_eq_getElem _ _ hi]
  simp

/-- C6: the Shapley set function short-circuits the all-zero subset to exactly
0, without constructing or sampling a hybrid model and without invoking the
difference estimation function — no recorded effects at all. -/
theorem empty_subset_short_circuits {M : Type} [Inhabited M]
    (oldMech newMech : ℕ → M) (g : List ℕ) (valueOfHybrid : List (ℕ × M) → ℚ)
    (subset : List ℕ) (h : subset.all (fun s => s = 0) = true) :
    attribution_set_function oldMech newMech g valueOfHybrid subset = (0, []) := by
  rw [attribution_set_function, if_pos h]

/-- Witness for C6 at a concrete input. -/
theorem empty_subset_short_circuits_witness :
    ([0, 0, 0] : List ℕ).all (fun s => s = 0) = true ∧
      attribution_set_function (fun n => n) (fun n => n + 100) [2, 0, 1]
        (fun a => ((a.map fun p => p.2).sum : ℚ)) [0, 0, 0] = (0, []) := by
  refine ⟨by decide, ?_⟩
  exact empty_subset_short_circuits (fun n => n) (fun n => n + 100) [2, 0, 1]
    (fun a => ((a.map fun p => p.2).sum : ℚ)) [0, 0, 0] (by decide)

/-- C1: the Shapley driver indexes players by the sorted node sequence: the
hybrid model built for a subset vector gives the i-th sorted node the
new-fitted mechanism exactly when entry i is 1 (old-fitted otherwise), the
output dictionary keys the i-th estimated Shapley value by the i-th sorted
node, and the whole result is invariant under the graph's native node
iteration order. -/
theorem shapley_driver_sorted_player_indexing {M : Type} [Inhabited M]
    (oldMech newMech : ℕ → M) (g g' : List ℕ) (hperm : g.Perm g')
    (shapley : (List ℕ → ℚ) → ℕ → List ℚ) (valueOfHybrid : List (ℕ × M) → ℚ)
    (subset : List ℕ) (i : ℕ) (hi : i < (sortedNodes g).length) :
    (hybridAssignment ((sortedNodes g).map oldMech) ((sortedNodes g).map newMech)
        (sortedNodes g) subset).get? i
      = some ((sortedNodes g).getD i 0,
          if subset.getD i 0 = 1 then newMech ((sortedNodes g).getD i 0)
          else oldMech ((sortedNodes g).getD i 0)) ∧
    (estimate_marginal_distribution_change oldMech newMech g shapley valueOfHybrid).get? i
      = some ((sortedNodes g).getD i 0,
          (shapley
            (fun s => (attribution_set_function oldMech newMech g valueOfHybrid s).1)
            (sortedNodes g).length).getD i 0) ∧
    estimate_marginal_distribution_change oldMech newMech g shapley valueOfHybrid
      = estimate_marginal_distribution_change oldMech newMech g' shapley valueOfHybrid := by
  refine ⟨?_, ?_, ?_⟩
  · rw [hybridAssignment, List.get?_map, List.get?_range (by simpa using hi),
      Option.map_some', getD_map_of_lt _ _ _ hi _ 0, getD_map_of_lt _ _ _ hi _ 0]
  · rw [estimate_marginal_distribution_change]
    simp only [List.length_map]
    rw [List.get?_map, List.get?_range hi]
    simp
  · simp only [estimate_marginal_distribution_change, attribution_set_function,
      hybridAssignment, sortedNodes_perm_eq hperm]

/-- Witness for C1 at a concrete input with an unsorted node iteration order
and its permutation. -/
theorem shapley_driver_sorted_player_indexing_witness :
    ([2, 0, 1] : List ℕ).Perm [1, 2, 0] ∧ (0 : ℕ) < (sortedNodes [2, 0, 1]).length ∧
      estimate_marginal_distribution_change (fun n => n) (fun n => n + 100) [2, 0, 1]
          (fun f n => (List.range n).map fun j =>
            f ((List.range n).map fun k => if k = j then 1 else 0))
          (fun a => ((a.map fun p => p.2).sum : ℚ))
        = estimate_marginal_distribution_change (fun n => n) (fun n => n + 100) [1, 2, 0]
          (fun f n => (List.range n).map fun j =>
            f ((List.range n).map fun k => if k = j then 1 else 0))
          (fun a => ((a.map fun p => p.2).sum : ℚ)) := by
  refine ⟨by decide, by decide, ?_⟩
  exact (shapley_driver_sorted_player_indexing (fun n => n) (fun n => n + 100)
    [2, 0, 1] [1, 2, 0] (by decide)
    (fun f n => (List.range n).map fun j =>
      f ((List.range n).map fun k => if k = j then 1 else 0))
    (fun a => ((a.map fun p => p.2).sum : ℚ)) [1, 0, 0] 0 (by decide)).2.2

/-! ### `distribution_change` (lines 124-150): order of fitting and validation

`distribution_change` builds the target-restricted clones (lines 124-130),
then calls `_fit_accounting_for_mechanism_change` (line 132), which fits both
models' mechanism for every node, and only afterwards calls
`distribution_change_of_graphs` (line 140) whose first statements are the
`validate_causal_dag` calls (lines 186-187) guarding the sampling-based
estimation.  The graph helpers live in `dowhy.gcm.graph`, which is not under
`src/`, and are modelled from the spec. -/

structure Graph where
  nodes : List ℕ
  edges : List (ℕ × ℕ)
  deriving DecidableEq

/-- Modelled from the spec: the acyclicity check behind `validate_causal_dag`
(`dowhy.gcm.graph`, not under `src/`; spec section 3 requires the causal graph
to be acyclic, validated before use).  Kahn elimination with fuel: repeatedly
drop the remaining nodes without an incoming edge from a remaining node; the
graph is acyclic exactly when every node is eliminated. -/
def isAcyclicAux (edges : List (ℕ × ℕ)) : ℕ → List ℕ → Bool
  | 0, remaining => remaining.isEmpty
  | fuel + 1, remaining =>
    if remaining.isEmpty then true
    else
      let keep := remaining.filter fun v =>
        edges.any fun e => e.2 == v && remaining.contains e.1
      if keep.length = remaining.length then false
      else isAcyclicAux edges fuel keep

def isAcyclic (g : Graph) : Bool := isAcyclicAux g.edges g.nodes.length g.nodes

inductive Err where
  | invalidDag
  deriving DecidableEq

/-- Modelled from the spec: `validate_causal_dag` raises a structural
validation error when the graph is not acyclic (spec section 7). -/
def validate_causal_dag (g : Graph) : Except Err Unit :=
  if isAcyclic g then Except.ok () else Except.error Err.invalidDag

/-- Modelled from the spec: ancestor closure of the target, computed as a
fuelled fixpoint adding the source of every edge into the current set. -/
def ancestorsAux (edges : List (ℕ × ℕ)) : ℕ → List ℕ → List ℕ
  | 0, s => s
  | fuel + 1, s =>
    let grown := (s ++ (edges.filter fun e => s.contains e.2).map Prod.fst).dedup
    if grown.length = s.length then s else ancestorsAux edges fuel grown

/-- Modelled from the spec: `node_connected_subgraph_view` restricts the graph
to the target together with its ancestors and the edges among them (spec 4.5
step 1). -/
def node_connected_subgraph_view (g : Graph) (target : ℕ) : Graph :=
  let anc := ancestorsAux g.edges (g.nodes.length + g.edges.length) [target]
  ⟨g.nodes.filter fun v => anc.contains v,
   g.edges.filter fun e => anc.contains e.1 && anc.contains e.2⟩

inductive Ev where
  | fitMechanism (onNewModel : Bool) (node : ℕ)
  | validateDag
  | drawSamples
  deriving DecidableEq

/-- Control flow of `distribution_change_of_graphs` (lines 186-196): the DAG
validation runs first and guards the sampling-based estimation. -/
def distribution_change_of_graphs_run (g : Graph) : List Ev × Except Err Unit :=
  match validate_causal_dag g with
  | Except.error e => ([Ev.validateDag], Except.error e)
  | Except.ok _ => ([Ev.validateDag, Ev.drawSamples], Except.ok ())

/-- Control flow of `distribution_change` (lines 124-150): restrict to the
target's subgraph, fit both cloned models' mechanisms for every node
(`_fit_accounting_for_mechanism_change`, line 132), then call
`distribution_change_of_graphs` (line 140). -/
def distribution_change_run (g : Graph) (target : ℕ) : List Ev × Except Err Unit :=
  let rg := node_connected_subgraph_view g target
  let fitEvents := rg.nodes.bind fun n =>
    [Ev.fitMechanism false n, Ev.fitMechanism true n]
  let inner := distribution_change_of_graphs_run rg
  (fitEvents ++ inner.1, inner.2)

/-- C4 counterexample: on the two-node cycle 0 -> 1 -> 0 with target 1 the
restricted graph is cyclic and `distribution_change` ends in the structural
validation error, but the trace starts with a mechanism fit, not with the
validation: mechanisms are fit before the error is raised, contradicting the
claim that the error precedes any fitting. -/
theorem cyclic_graph_fits_before_validation_counterexample :
    (distribution_change_run ⟨[0, 1], [(0, 1), (1, 0)]⟩ 1).2
        = Except.error Err.invalidDag ∧
      Ev.fitMechanism false 0 ∈ (distribution_change_run ⟨[0, 1], [(0, 1), (1, 0)]⟩ 1).1 ∧
      (distribution_change_run ⟨[0, 1], [(0, 1), (1, 0)]⟩ 1).1.get? 0
        ≠ some Ev.validateDag := by
  refine ⟨rfl, by decide, by decide⟩

/-- C4 amended: within `distribution_change_of_graphs` the acyclicity error is
raised before any sampling; but `distribution_change` performs its mechanism
fitting first, so on a reference model whose target-restricted graph is cyclic
the validation error is raised only after both models' mechanisms have been
fit for every node of the restricted graph (and no sampling occurs). -/
theorem cyclic_graph_raises_after_fitting (g : Graph) (target : ℕ)
    (h : isAcyclic (node_connected_subgraph_view g target) = false) :
    (distribution_change_run g target).2 = Except.error Err.invalidDag ∧
    Ev.drawSamples ∉ (distribution_change_run g target).1 ∧
    (∀ n ∈ (node_connected_subgraph_view g target).nodes,
      Ev.fitMechanism false n ∈ (distribution_change_run g target).1 ∧
      Ev.fitMechanism true n ∈ (distribution_change_run g target).1) ∧
    (distribution_change_run g target).1
      = ((node_connected_subgraph_view g target).nodes.bind fun n =>
          [Ev.fitMechanism false n, Ev.fitMechanism true n]) ++ [Ev.validateDag] := by
  have hval : validate_causal_dag (node_connected_subgraph_view g target)
      = Except.error Err.invalidDag := by
    simp [validate_causal_dag, h]
  have hrun : distribution_change_run g target
      = (((node_connected_subgraph_view g target).nodes.bind fun n =>
          [Ev.fitMechanism false n, Ev.fitMechanism true n]) ++ [Ev.validateDag],
        Except.error Err.invalidDag) := by
    rw [distribution_change_run, distribution_change_of_graphs_run, hval]
  rw [hrun]
  refine ⟨rfl, ?_, ?_, rfl⟩
  · simp [List.mem_bind]
  · intro n hn
    constructor
    · simp only [List.mem_append, List.mem_bind]
      exact Or.inl ⟨n, hn, by simp⟩
    · simp only [List.mem_append, List.mem_bind]
      exact Or.inl ⟨n, hn, by simp⟩

/-- Witness for C4 (amended) at the concrete two-node cycle. -/
theorem cyclic_graph_raises_after_fitting_witness :
    isAcyclic (node_connected_subgraph_view ⟨[0, 1], [(0, 1), (1, 0)]⟩ 1) = false ∧
      (distribution_change_run ⟨[0, 1], [(0, 1), (1, 0)]⟩ 1).2
        = Except.error Err.invalidDag := by
  refine ⟨by decide, ?_⟩
  exact (cyclic_graph_raises_after_fitting ⟨[0, 1], [(0, 1), (1, 0)]⟩ 1 (by decide)).1

end DistributionChange
